import Mathlib

/-!
Verification of the transcript chunking / vector indexing / retrieval pipeline
of the video-indexing-and-search repository (src/transcript.py, src/indexer.py).

The Python code is shallowly embedded: Python floats for times become `Rat`,
Python lists become `List`, exceptions become `Except`, the external
collaborators (Gemini embedding backend, Pinecone vector store) become an
explicit `Backend` record of fallible functions, and the network calls a run
performs are recorded as an explicit `Event` trace.
-/

namespace VideoIndex

/-- A caption entry of the transcript collaborator:
`\x7b"text": ..., "start": ..., "duration": ...\x7d`. -/
structure CaptionEntry where
  text : String
  start : Rat
  duration : Rat
deriving DecidableEq, Repr

instance : Inhabited CaptionEntry := ⟨⟨"", 0, 0⟩⟩

/-- Python `" ".join(l)`: empty string on an empty list, otherwise the
elements separated by single spaces. -/
def joinSpace : List String → String
  | [] => ""
  | [s] => s
  | s :: t :: rest => s ++ " " ++ joinSpace (t :: rest)

/-- Python `int(x)` on a rational value: truncation toward zero
(`Int.tdiv` is T-division). -/
def pyInt (q : Rat) : Int := Int.tdiv q.num (Int.ofNat q.den)

/-- Zero-padding to two digits, as Python's `%02d` for values in `[0, 60)`. -/
def pad2 (n : Int) : String := if n < 10 then "0" ++ toString n else toString n

/-- Python `str(datetime.timedelta(seconds=n))` for an integer `n`:
the timedelta normalizes into days (floor division) and a remaining
second count in `[0, 86400)`, rendered `H:MM:SS` with an optional
`D day(s), ` prefix when the day count is nonzero. -/
def pyStrTimedelta (n : Int) : String :=
  let days := n / 86400
  let rem := n % 86400
  let hh := rem / 3600
  let mm := rem % 3600 / 60
  let ss := rem % 60
  let base := toString hh ++ ":" ++ pad2 mm ++ ":" ++ pad2 ss
  if days = 0 then base
  else toString days ++ (if days = 1 ∨ days = -1 then " day, " else " days, ") ++ base

/-- One chunk dictionary as built by `create_chunks` in src/indexer.py. -/
structure Chunk where
  text : String
  start_time : Rat
  end_time : Rat
  start_formatted : String
  end_formatted : String
deriving DecidableEq, Repr

/-- The body of the `create_chunks` loop applied to one slice
`transcript_data[i : i + chunk_size]` (never empty in the loop):
`chunk[0]` is the head, `chunk[-1]` the last element. -/
def mkChunk (chunk : List CaptionEntry) : Chunk :=
  let text := joinSpace (chunk.map CaptionEntry.text)
  let start_time := (chunk.headD default).start
  let end_time := (chunk.getLastD default).start + (chunk.getLastD default).duration
  { text := text
    start_time := start_time
    end_time := end_time
    start_formatted := pyStrTimedelta (pyInt start_time)
    end_formatted := pyStrTimedelta (pyInt end_time) }

/-- The successive slices `transcript_data[i : i + k]` for
`i in range(0, len(transcript_data), k)` with `k ≥ 1`, written with
explicit fuel so that the recursion is structural; `fuel` is an upper
bound on the number of elements still to be consumed. -/
def groupsFuel (k : Nat) : Nat → List CaptionEntry → List (List CaptionEntry)
  | 0, _ => []
  | _, [] => []
  | fuel + 1, x :: rest =>
      (x :: rest.take (k - 1)) :: groupsFuel k fuel (rest.drop (k - 1))

/-- The slice groups of the `create_chunks` loop for a positive step `k`. -/
def groupsPos (k : Nat) (td : List CaptionEntry) : List (List CaptionEntry) :=
  groupsFuel k td.length td

/-- Python-level errors raised by the embedded code. -/
inductive PyErr
  | valueError (msg : String)
deriving DecidableEq, Repr

/-- `create_chunks(transcript_data, chunk_size)` from src/indexer.py.
The loop header is `for i in range(0, len(transcript_data), chunk_size)`:
a zero step makes `range` raise `ValueError`, a negative step with start 0
and stop `len ≥ 0` yields an empty range (so an empty chunk list), and a
positive step slices the list into groups of `chunk_size`. -/
def create_chunks (transcript_data : List CaptionEntry) (chunk_size : Int) :
    Except PyErr (List Chunk) :=
  if chunk_size = 0 then
    .error (.valueError "range() arg 3 must not be zero")
  else if chunk_size < 0 then
    .ok []
  else
    .ok ((groupsPos chunk_size.toNat transcript_data).map mkChunk)

/-- The `task_type` argument of `genai.embed_content`; the spec calls these
the DOCUMENT and QUERY embedding intents. -/
inductive TaskType
  | retrieval_document
  | retrieval_query
deriving DecidableEq, Repr

/-- The metadata dictionary upserted with each chunk vector
(src/indexer.py lines 148-155). -/
structure Metadata where
  video_id : String
  text : String
  start_time : Rat
  end_time : Rat
  start_formatted : String
  end_formatted : String
deriving DecidableEq, Repr

/-- One vector record passed to `index.upsert` (src/indexer.py 143-158). -/
structure UpsertVector where
  id : String
  values : List Rat
  metadata : Metadata
deriving DecidableEq, Repr

/-- One match returned by `index.query` (metadata plus similarity score). -/
structure MatchRec where
  metadata : Metadata
  score : Rat
deriving DecidableEq, Repr

/-- One result dictionary built by `search_videos` (src/indexer.py 200-211). -/
structure SearchResult where
  video_id : String
  text : String
  start_time : Rat
  end_time : Rat
  start_formatted : String
  end_formatted : String
  score : Rat
deriving DecidableEq, Repr

/-- The external collaborators: the Gemini embedding service and the
Pinecone index, as fallible functions with error type `E`.
`embed` takes the task type and the content; `upsert` takes one vector
record; `query` takes the query vector, `top_k` and `include_metadata`. -/
structure Backend (E : Type) where
  embed : TaskType → String → Except E (List Rat)
  upsert : UpsertVector → Except E Unit
  query : List Rat → Nat → Bool → Except E (List MatchRec)

/-- The network calls a run performs, in order. -/
inductive Event
  | embedCall (task : TaskType) (content : String)
  | upsertCall (v : UpsertVector)
  | queryCall (vector : List Rat) (top_k : Nat) (include_metadata : Bool)
deriving DecidableEq, Repr

/-- `get_embedding(text)` from src/indexer.py: always calls the backend
with `task_type="retrieval_document"` and re-raises any failure. -/
def get_embedding (B : Backend E) (text : String) : Except E (List Rat) :=
  B.embed TaskType.retrieval_document text

/-- The metadata dictionary built for a chunk in the upsert loop. -/
def chunkMetadata (video_id : String) (c : Chunk) : Metadata :=
  { video_id := video_id
    text := c.text
    start_time := c.start_time
    end_time := c.end_time
    start_formatted := c.start_formatted
    end_formatted := c.end_formatted }

/-- The vector record upserted for chunk ordinal `i`:
id `f"{video_id}_chunk_{i}"`, the embedding, and the chunk metadata. -/
def chunkVector (video_id : String) (i : Nat) (c : Chunk) (emb : List Rat) :
    UpsertVector :=
  { id := video_id ++ "_chunk_" ++ toString i
    values := emb
    metadata := chunkMetadata video_id c }

/-- The `for i, chunk in enumerate(chunks)` loop of `index_video_transcript`
(src/indexer.py 135-159): embed the chunk text, build the vector record,
upsert it; any exception aborts the loop and propagates. The returned
trace records the embedding and upsert calls actually issued. -/
def upsertLoop (B : Backend E) (video_id : String) :
    List Chunk → Nat → Except E Unit × List Event
  | [], _ => (.ok (), [])
  | c :: rest, i =>
    match get_embedding B c.text with
    | .error e => (.error e, [.embedCall .retrieval_document c.text])
    | .ok emb =>
      let u := chunkVector video_id i c emb
      match B.upsert u with
      | .error e => (.error e, [.embedCall .retrieval_document c.text, .upsertCall u])
      | .ok _ =>
        let r := upsertLoop B video_id rest (i + 1)
        (r.1, .embedCall .retrieval_document c.text :: .upsertCall u :: r.2)

/-- The ValueError raised when PINECONE_API_KEY is missing. -/
def pineconeKeyError : PyErr :=
  .valueError "PINECONE_API_KEY not found in environment variables"

/-- `index_video_transcript(video_id, transcript_data)` from src/indexer.py:
checks PINECONE_API_KEY before any network call, parses the transcript
(modelled as the already-parsed caption list), chunks it with the default
chunk_size 3, then runs the per-chunk embed-and-upsert loop; any exception
is re-raised unchanged. Returns the outcome and the trace of external
calls issued. -/
def index_video_transcript (B : Backend E) (pinecone_api_key : Option String)
    (video_id : String) (transcript : List CaptionEntry) :
    Except (PyErr ⊕ E) Unit × List Event :=
  match pinecone_api_key with
  | none => (.error (.inl pineconeKeyError), [])
  | some _ =>
    match create_chunks transcript 3 with
    | .error pe => (.error (.inl pe), [])
    | .ok chunks =>
      let r := upsertLoop B video_id chunks 0
      (r.1.mapError Sum.inr, r.2)

/-- The dictionary built from one Pinecone match in `search_videos`
(src/indexer.py 200-211). -/
def matchToResult (m : MatchRec) : SearchResult :=
  { video_id := m.metadata.video_id
    text := m.metadata.text
    start_time := m.metadata.start_time
    end_time := m.metadata.end_time
    start_formatted := m.metadata.start_formatted
    end_formatted := m.metadata.end_formatted
    score := m.score }

/-- `search_videos(query, top_k)` from src/indexer.py: checks
PINECONE_API_KEY before any network call, embeds the query via
`get_embedding`, queries the index with `top_k` and
`include_metadata=True`, and maps each match to a result dictionary in
order; any exception is re-raised unchanged. -/
def search_videos (B : Backend E) (pinecone_api_key : Option String)
    (query : String) (top_k : Nat) :
    Except (PyErr ⊕ E) (List SearchResult) × List Event :=
  match pinecone_api_key with
  | none => (.error (.inl pineconeKeyError), [])
  | some _ =>
    match get_embedding B query with
    | .error e => (.error (.inr e), [.embedCall .retrieval_document query])
    | .ok query_embedding =>
      match B.query query_embedding top_k true with
      | .error e => (.error (.inr e),
          [.embedCall .retrieval_document query,
           .queryCall query_embedding top_k true])
      | .ok results =>
        (.ok (results.map matchToResult),
          [.embedCall .retrieval_document query,
           .queryCall query_embedding top_k true])

/-- `get_transcript(video_id)` from src/transcript.py, as a function of the
collaborator's outcome: on success the caption list is returned, on any
exception the handler prints a message and returns `None`. -/
def get_transcript (fetchResult : Except String (List CaptionEntry)) :
    Option (List CaptionEntry) :=
  match fetchResult with
  | .ok t => some t
  | .error _ => none

/-- `get_json_transcript(video_id)` from src/transcript.py:
`json.dumps(get_transcript(video_id))`. `json.dumps(None)` is the string
"null"; serialization of an actual caption list is kept opaque as the
parameter `dumpsList`. -/
def get_json_transcript (dumpsList : List CaptionEntry → String)
    (fetchResult : Except String (List CaptionEntry)) : String :=
  match get_transcript fetchResult with
  | none => "null"
  | some t => dumpsList t

/-- The upsert calls contained in a trace, in order. -/
def performedUpserts (tr : List Event) : List UpsertVector :=
  tr.filterMap fun ev =>
    match ev with
    | .upsertCall u => some u
    | _ => none

/-- The vector store contents: ids mapped to stored values and metadata. -/
def Store : Type := String → Option (List Rat × Metadata)

/-- Overwrite-by-id semantics of one upsert. -/
def applyUpsert (s : Store) (u : UpsertVector) : Store :=
  fun key => if key = u.id then some (u.values, u.metadata) else s key

/-- Applying a sequence of upserts in order. -/
def applyUpserts (s : Store) (us : List UpsertVector) : Store :=
  us.foldl applyUpsert s

/-- The last write a list of upserts makes to a given id, if any. -/
def lastWrite (us : List UpsertVector) (key : String) :
    Option (List Rat × Metadata) :=
  match us with
  | [] => none
  | u :: rest =>
    match lastWrite rest key with
    | some v => some v
    | none => if key = u.id then some (u.values, u.metadata) else none

/-- The upsert list the indexing loop performs when every embedding
succeeds, starting at ordinal `i`; `none` if some embedding fails. -/
def expectedUpserts (B : Backend E) (video_id : String) :
    List Chunk → Nat → Option (List UpsertVector)
  | [], _ => some []
  | c :: rest, i =>
    match get_embedding B c.text with
    | .error _ => none
    | .ok emb =>
      (expectedUpserts B video_id rest (i + 1)).map (chunkVector video_id i c emb :: ·)

theorem joinSpace_cons_append (s : String) (a b : List String) (hb : b ≠ []) :
    joinSpace ((s :: a) ++ b) = joinSpace (s :: a) ++ " " ++ joinSpace b := by
  induction a generalizing s with
  | nil =>
    cases b with
    | nil => exact absurd rfl hb
    | cons t b2 => rfl
  | cons t a2 ih =>
    have h1 : joinSpace ((s :: t :: a2) ++ b) = s ++ " " ++ joinSpace ((t :: a2) ++ b) := rfl
    have h2 : joinSpace (s :: t :: a2) = s ++ " " ++ joinSpace (t :: a2) := rfl
    rw [h1, ih t, h2]
    simp only [String.append_assoc]

theorem joinSpace_flatten (gs : List (List String)) (h : ∀ g ∈ gs, g ≠ []) :
    joinSpace (gs.map joinSpace) = joinSpace gs.flatten := by
  induction gs with
  | nil => rfl
  | cons g gs ih =>
    cases gs with
    | nil => simp [List.flatten]; rfl
    | cons g2 gs2 =>
      have hg : g ≠ [] := h g (by simp)
      obtain ⟨s, g', rfl⟩ : ∃ s g', g = s :: g' := by
        cases g with
        | nil => exact absurd rfl hg
        | cons s g' => exact ⟨s, g', rfl⟩
      have hg2 : g2 ≠ [] := h g2 (by simp)
      have hflat2 : (g2 :: gs2).flatten ≠ [] := by
        cases g2 with
        | nil => exact absurd rfl hg2
        | cons y g2' => simp [List.flatten_cons]
      have hL : joinSpace (((s :: g') :: g2 :: gs2).map joinSpace)
          = joinSpace (s :: g') ++ " " ++ joinSpace ((g2 :: gs2).map joinSpace) := rfl
      rw [List.flatten_cons, joinSpace_cons_append s g' _ hflat2, hL,
        ih (fun g hg => h g (by simp [hg]))]

theorem groupsFuel_flatten (k : Nat) :
    ∀ (fuel : Nat) (td : List CaptionEntry), td.length ≤ fuel →
      (groupsFuel k fuel td).flatten = td := by
  intro fuel
  induction fuel with
  | zero =>
    intro td h
    cases td with
    | nil => rfl
    | cons x rest => simp at h
  | succ fuel ih =>
    intro td h
    cases td with
    | nil => rfl
    | cons x rest =>
      show ((x :: rest.take (k - 1)) :: groupsFuel k fuel (rest.drop (k - 1))).flatten
          = x :: rest
      have hlen : (rest.drop (k - 1)).length ≤ fuel := by
        have := List.length_drop (k - 1) rest
        simp at h
        omega
      rw [List.flatten_cons, ih _ hlen, List.cons_append, List.take_append_drop]

theorem groupsFuel_length (k : Nat) (hk : 1 ≤ k) :
    ∀ (fuel : Nat) (td : List CaptionEntry), td.length ≤ fuel →
      (groupsFuel k fuel td).length = (td.length + k - 1) / k := by
  intro fuel
  induction fuel with
  | zero =>
    intro td h
    cases td with
    | nil => simp [groupsFuel, Nat.div_eq_of_lt (show k - 1 < k by omega)]
    | cons x rest => simp at h
  | succ fuel ih =>
    intro td h
    cases td with
    | nil => simp [groupsFuel, Nat.div_eq_of_lt (show k - 1 < k by omega)]
    | cons x rest =>
      show (groupsFuel k fuel (rest.drop (k - 1))).length + 1 = _
      have hlen : (rest.drop (k - 1)).length ≤ fuel := by
        have := List.length_drop (k - 1) rest
        simp at h
        omega
      rw [ih _ hlen, List.length_drop, List.length_cons]
      have hnum : rest.length + 1 + k - 1 = rest.length + k := by omega
      rw [hnum, Nat.add_div_right _ (by omega : 0 < k)]
      rcases le_or_lt (k - 1) rest.length with hle | hlt
      · have : rest.length - (k - 1) + k - 1 = rest.length := by omega
        rw [this]
      · have h1 : rest.length - (k - 1) + k - 1 = k - 1 := by omega
        rw [h1, Nat.div_eq_of_lt (by omega), Nat.div_eq_of_lt (by omega)]

theorem groupsFuel_ne_nil (k : Nat) :
    ∀ (fuel : Nat) (td : List CaptionEntry), ∀ g ∈ groupsFuel k fuel td, g ≠ [] := by
  intro fuel
  induction fuel with
  | zero => intro td g hg; simp [groupsFuel] at hg
  | succ fuel ih =>
    intro td g hg
    cases td with
    | nil => simp [groupsFuel] at hg
    | cons x rest =>
      have hg2 : g = x :: rest.take (k - 1) ∨ g ∈ groupsFuel k fuel (rest.drop (k - 1)) :=
        List.mem_cons.1 hg
      rcases hg2 with hg2 | hg2
      · subst hg2; simp
      · exact ih _ g hg2

theorem groupsFuel_sublist (k : Nat) :
    ∀ (fuel : Nat) (td : List CaptionEntry), ∀ g ∈ groupsFuel k fuel td, g.Sublist td := by
  intro fuel
  induction fuel with
  | zero => intro td g hg; simp [groupsFuel] at hg
  | succ fuel ih =>
    intro td g hg
    cases td with
    | nil => simp [groupsFuel] at hg
    | cons x rest =>
      have hg2 : g = x :: rest.take (k - 1) ∨ g ∈ groupsFuel k fuel (rest.drop (k - 1)) :=
        List.mem_cons.1 hg
      rcases hg2 with hg2 | hg2
      · subst hg2; exact (List.take_sublist _ _).cons₂ x
      · exact List.sublist_cons_of_sublist x
          ((ih _ g hg2).trans (List.drop_sublist _ _))

/-- C1: for a transcript of `N` entries and any `chunk_size = k ≥ 1`,
`create_chunks` succeeds with exactly `⌈N/k⌉` chunks (computed as
`(N + k - 1) / k`), joining all chunk texts with single spaces gives back
the space-joined entry texts, and an empty input yields no chunks. -/
theorem create_chunks_count_and_reconstruct (td : List CaptionEntry) (k : Int)
    (hk : 1 ≤ k) :
    ∃ cs, create_chunks td k = .ok cs ∧
      cs.length = (td.length + k.toNat - 1) / k.toNat ∧
      joinSpace (cs.map Chunk.text) = joinSpace (td.map CaptionEntry.text) ∧
      (td = [] → cs = []) := by
  have hk0 : ¬ k = 0 := by omega
  have hkneg : ¬ k < 0 := by omega
  have hk1 : 1 ≤ k.toNat := by omega
  refine ⟨(groupsPos k.toNat td).map mkChunk, ?_, ?_, ?_, ?_⟩
  · simp [create_chunks, hk0, hkneg]
  · rw [List.length_map]
    exact groupsFuel_length k.toNat hk1 td.length td le_rfl
  · have hne : ∀ g ∈ groupsPos k.toNat td, g ≠ [] :=
      groupsFuel_ne_nil k.toNat td.length td
    have hflat : (groupsPos k.toNat td).flatten = td :=
      groupsFuel_flatten k.toNat td.length td le_rfl
    have step1 : ((groupsPos k.toNat td).map mkChunk).map Chunk.text
        = ((groupsPos k.toNat td).map (List.map CaptionEntry.text)).map joinSpace := by
      rw [List.map_map, List.map_map]
      exact List.map_congr_left (fun g hg => rfl)
    rw [step1, joinSpace_flatten _ ?nonempty, ← List.map_flatten, hflat]
    case nonempty =>
      intro g hg
      obtain ⟨g0, hg0, rfl⟩ := List.mem_map.1 hg
      simpa using hne g0 hg0
  · intro h
    subst h
    rfl

/-- The spec's rendering of a second count: an `hours:minutes:seconds`
string, hours unpadded, minutes and seconds zero-padded (spec 4.2 and 8),
to be compared with `pyStrTimedelta`. -/
def specHMS (n : Int) : String :=
  toString (n / 3600) ++ ":" ++ pad2 (n % 3600 / 60) ++ ":" ++ pad2 (n % 60)

theorem pyInt_intCast (m : Int) : pyInt ((m : Rat)) = m := by
  simp [pyInt, Rat.num_intCast, Rat.den_intCast, Int.tdiv_one]

theorem pyStrTimedelta_eq_specHMS (n : Int) (h0 : 0 ≤ n) (h1 : n < 86400) :
    pyStrTimedelta n = specHMS n := by
  simp only [pyStrTimedelta, specHMS]
  rw [Int.ediv_eq_zero_of_lt h0 h1, Int.emod_eq_of_lt h0 h1]
  simp

theorem headD_start_le_getLastD_start (g : List CaptionEntry) (hg : g ≠ [])
    (hsort : g.Pairwise (fun a b => a.start ≤ b.start)) :
    (g.headD default).start ≤ (g.getLastD default).start := by
  cases g with
  | nil => exact absurd rfl hg
  | cons x t =>
    rw [List.headD_cons, List.getLastD_cons]
    have hmem := List.getLastD_mem_cons t x
    rcases List.mem_cons.1 hmem with h | h
    · exact ge_of_eq (congrArg CaptionEntry.start h)
    · exact (List.pairwise_cons.1 hsort).1 _ h

/-- C6: for a chronological transcript with nonnegative starts and
durations, every chunk is built from its slice group: its text is the
group's texts space-joined in order, its start_time is the first entry's
start, its end_time is the last entry's start plus duration, and
end_time ≥ start_time. -/
theorem create_chunks_chunk_invariants (td : List CaptionEntry) (k : Int) (hk : 1 ≤ k)
    (hsort : td.Pairwise (fun a b => a.start ≤ b.start))
    (hnn : ∀ e ∈ td, 0 ≤ e.start ∧ 0 ≤ e.duration) (cs : List Chunk)
    (hcs : create_chunks td k = .ok cs) :
    cs = (groupsPos k.toNat td).map mkChunk ∧
    (∀ g ∈ groupsPos k.toNat td, g ≠ [] ∧
      (mkChunk g).text = joinSpace (g.map CaptionEntry.text) ∧
      (mkChunk g).start_time = (g.headD default).start ∧
      (mkChunk g).end_time = (g.getLastD default).start + (g.getLastD default).duration) ∧
    (∀ c ∈ cs, c.start_time ≤ c.end_time) := by
  have hk0 : ¬ k = 0 := by omega
  have hkneg : ¬ k < 0 := by omega
  have hcs' : cs = (groupsPos k.toNat td).map mkChunk := by
    simpa [create_chunks, hk0, hkneg] using hcs.symm
  refine ⟨hcs', fun g hg => ⟨groupsFuel_ne_nil k.toNat td.length td g hg, rfl, rfl, rfl⟩,
    fun c hc => ?_⟩
  rw [hcs'] at hc
  obtain ⟨g, hg, rfl⟩ := List.mem_map.1 hc
  have hgne : g ≠ [] := groupsFuel_ne_nil k.toNat td.length td g hg
  have hgsub : g.Sublist td := groupsFuel_sublist k.toNat td.length td g hg
  have hgsort : g.Pairwise (fun a b => a.start ≤ b.start) :=
    List.Pairwise.sublist hgsub hsort
  have h1 : (g.headD default).start ≤ (g.getLastD default).start :=
    headD_start_le_getLastD_start g hgne hgsort
  have hlast_mem : g.getLastD default ∈ td := by
    apply hgsub.subset
    cases g with
    | nil => exact absurd rfl hgne
    | cons x t => rw [List.getLastD_cons]; exact List.getLastD_mem_cons t x
  have h2 : 0 ≤ (g.getLastD default).duration := (hnn _ hlast_mem).2
  show (g.headD default).start
      ≤ (g.getLastD default).start + (g.getLastD default).duration
  exact h1.trans (le_add_of_nonneg_right h2)

/-- C6 witness: the invariants instantiated on a three-entry chronological
transcript with chunk_size 2. -/
theorem create_chunks_chunk_invariants_witness :
    ([mkChunk [⟨"Hello world", 0, 2⟩, ⟨"this is", 2, 1⟩], mkChunk [⟨"a test", 3, 2⟩]]
        = (groupsPos (2:Int).toNat [⟨"Hello world", 0, 2⟩, ⟨"this is", 2, 1⟩,
            ⟨"a test", 3, 2⟩]).map mkChunk) ∧
    (∀ g ∈ groupsPos (2:Int).toNat [(⟨"Hello world", 0, 2⟩ : CaptionEntry),
        ⟨"this is", 2, 1⟩, ⟨"a test", 3, 2⟩], g ≠ [] ∧
      (mkChunk g).text = joinSpace (g.map CaptionEntry.text) ∧
      (mkChunk g).start_time = (g.headD default).start ∧
      (mkChunk g).end_time = (g.getLastD default).start + (g.getLastD default).duration) ∧
    (∀ c ∈ [mkChunk [(⟨"Hello world", 0, 2⟩ : CaptionEntry), ⟨"this is", 2, 1⟩],
        mkChunk [(⟨"a test", 3, 2⟩ : CaptionEntry)]],
      c.start_time ≤ c.end_time) :=
  create_chunks_chunk_invariants
    [⟨"Hello world", 0, 2⟩, ⟨"this is", 2, 1⟩, ⟨"a test", 3, 2⟩] 2
    (by decide) (by decide) (by decide) _ rfl

/-- C7 (amended): for every chunk whose truncated start and end times are
below one day (86400 s), start_formatted and end_formatted are exactly the
`H:MM:SS` rendering with zero-padded minutes and seconds; 125 s renders
"0:02:05" and 3725 s renders "1:02:05". Times of a day or more instead get
a day-count prefix (see the counterexample). -/
theorem create_chunks_formatted_hms (td : List CaptionEntry) (k : Int)
    (cs : List Chunk) (hcs : create_chunks td k = .ok cs) (c : Chunk) (hc : c ∈ cs)
    (hs0 : 0 ≤ pyInt c.start_time) (hs1 : pyInt c.start_time < 86400)
    (he0 : 0 ≤ pyInt c.end_time) (he1 : pyInt c.end_time < 86400) :
    c.start_formatted = specHMS (pyInt c.start_time) ∧
    c.end_formatted = specHMS (pyInt c.end_time) ∧
    specHMS 125 = "0:02:05" ∧ specHMS 3725 = "1:02:05" := by
  have hfmt : c.start_formatted = pyStrTimedelta (pyInt c.start_time) ∧
      c.end_formatted = pyStrTimedelta (pyInt c.end_time) := by
    by_cases hk0 : k = 0
    · simp [create_chunks, hk0] at hcs
    by_cases hkneg : k < 0
    · simp [create_chunks, hk0, hkneg] at hcs
      subst hcs
      simp at hc
    · have hcs' : cs = (groupsPos k.toNat td).map mkChunk := by
        simpa [create_chunks, hk0, hkneg] using hcs.symm
      rw [hcs'] at hc
      obtain ⟨g, hg, rfl⟩ := List.mem_map.1 hc
      exact ⟨rfl, rfl⟩
  exact ⟨hfmt.1.trans (pyStrTimedelta_eq_specHMS _ hs0 hs1),
    hfmt.2.trans (pyStrTimedelta_eq_specHMS _ he0 he1), by decide, by decide⟩

/-- C7 witness: a single-entry chunk starting at 125 s and ending at
3725 s renders "0:02:05" and "1:02:05". -/
theorem create_chunks_formatted_hms_witness :
    (mkChunk [(⟨"a", 125, 3600⟩ : CaptionEntry)]).start_formatted
        = specHMS (pyInt (mkChunk [(⟨"a", 125, 3600⟩ : CaptionEntry)]).start_time) ∧
    (mkChunk [(⟨"a", 125, 3600⟩ : CaptionEntry)]).end_formatted
        = specHMS (pyInt (mkChunk [(⟨"a", 125, 3600⟩ : CaptionEntry)]).end_time) ∧
    specHMS 125 = "0:02:05" ∧ specHMS 3725 = "1:02:05" :=
  create_chunks_formatted_hms [⟨"a", 125, 3600⟩] 3 [mkChunk [⟨"a", 125, 3600⟩]] rfl
    (mkChunk [⟨"a", 125, 3600⟩]) (by simp)
    (by decide) (by decide)
    (by show (0:Int) ≤ pyInt ((125:Rat) + 3600)
        rw [show ((125:Rat) + 3600) = ((3725:Int):Rat) by norm_num, pyInt_intCast]
        decide)
    (by show pyInt ((125:Rat) + 3600) < 86400
        rw [show ((125:Rat) + 3600) = ((3725:Int):Rat) by norm_num, pyInt_intCast]
        decide)

/-- C7 counterexample: a chunk produced by `create_chunks` starting at
90000 s (25 hours) has start_formatted "1 day, 1:00:00", which is not the
`hours:minutes:seconds` rendering "25:00:00" of its truncated start time. -/
theorem formatted_day_counterexample :
    create_chunks [(⟨"x", 90000, 10⟩ : CaptionEntry)] 3
        = .ok [mkChunk [⟨"x", 90000, 10⟩]] ∧
    (mkChunk [(⟨"x", 90000, 10⟩ : CaptionEntry)]).start_formatted = "1 day, 1:00:00" ∧
    specHMS (pyInt (mkChunk [(⟨"x", 90000, 10⟩ : CaptionEntry)]).start_time)
        = "25:00:00" ∧
    (mkChunk [(⟨"x", 90000, 10⟩ : CaptionEntry)]).start_formatted
        ≠ specHMS (pyInt (mkChunk [(⟨"x", 90000, 10⟩ : CaptionEntry)]).start_time) :=
  ⟨rfl, by decide, by decide, by decide⟩

/-- C8 (amended): a non-positive chunk_size is not rejected with a typed
configuration error: chunk_size = 0 raises the untyped `ValueError` coming
from `range`, and a negative chunk_size silently succeeds with an empty
chunk list. -/
theorem create_chunks_nonpositive_size (td : List CaptionEntry) (k : Int) (hk : k ≤ 0) :
    create_chunks td k =
      (if k = 0 then .error (.valueError "range() arg 3 must not be zero")
       else .ok []) := by
  by_cases h : k = 0
  · simp [create_chunks, h]
  · simp [create_chunks, h, show k < 0 by omega]

/-- C8 witness: chunk_size -1 on a nonempty transcript returns an empty
chunk list; chunk_size 0 raises the range ValueError. -/
theorem create_chunks_nonpositive_size_witness :
    (create_chunks [(⟨"a", 0, 1⟩ : CaptionEntry)] (-1) =
      (if (-1 : Int) = 0 then .error (.valueError "range() arg 3 must not be zero")
       else .ok [])) ∧
    (create_chunks [(⟨"a", 0, 1⟩ : CaptionEntry)] 0 =
      (if (0 : Int) = 0 then .error (.valueError "range() arg 3 must not be zero")
       else .ok [])) :=
  ⟨create_chunks_nonpositive_size [⟨"a", 0, 1⟩] (-1) (by decide),
   create_chunks_nonpositive_size [⟨"a", 0, 1⟩] 0 (by decide)⟩

/-- C8 counterexample: with chunk_size -1 (≤ 0) and a nonempty transcript
`create_chunks` succeeds with an empty chunk list instead of failing with
a typed configuration error. -/
theorem create_chunks_negative_size_counterexample :
    create_chunks [(⟨"a", 0, 1⟩ : CaptionEntry)] (-1) = .ok [] := rfl

/-- C1 witness: three entries with chunk_size 2 give ⌈3/2⌉ = 2 chunks whose
joined texts reconstruct the joined input texts. -/
theorem create_chunks_count_and_reconstruct_witness :
    ∃ cs, create_chunks [(⟨"Hello world", 0, 2⟩ : CaptionEntry), ⟨"this is", 2, 1⟩,
        ⟨"a test", 3, 2⟩] 2 = .ok cs ∧
      cs.length = (([(⟨"Hello world", 0, 2⟩ : CaptionEntry), ⟨"this is", 2, 1⟩,
        ⟨"a test", 3, 2⟩]).length + (2:Int).toNat - 1) / (2:Int).toNat ∧
      joinSpace (cs.map Chunk.text)
        = joinSpace (([(⟨"Hello world", 0, 2⟩ : CaptionEntry), ⟨"this is", 2, 1⟩,
            ⟨"a test", 3, 2⟩]).map CaptionEntry.text) ∧
      ([(⟨"Hello world", 0, 2⟩ : CaptionEntry), ⟨"this is", 2, 1⟩,
        ⟨"a test", 3, 2⟩] = [] → cs = []) :=
  create_chunks_count_and_reconstruct
    [⟨"Hello world", 0, 2⟩, ⟨"this is", 2, 1⟩, ⟨"a test", 3, 2⟩] 2 (by decide)

theorem applyUpserts_apply (us : List UpsertVector) :
    ∀ (s : Store) (key : String),
      applyUpserts s us key =
        match lastWrite us key with
        | some v => some v
        | none => s key := by
  induction us with
  | nil => intro s key; rfl
  | cons u rest ih =>
    intro s key
    show applyUpserts (applyUpsert s u) rest key = _
    rw [ih]
    cases h : lastWrite rest key with
    | some v => simp [lastWrite, h]
    | none =>
      simp only [lastWrite, h]
      by_cases hk : key = u.id <;> simp [applyUpsert, hk]

theorem applyUpserts_idem (s : Store) (us : List UpsertVector) :
    applyUpserts (applyUpserts s us) us = applyUpserts s us := by
  funext key
  rw [applyUpserts_apply, applyUpserts_apply]
  cases h : lastWrite us key with
  | some v => rfl
  | none => rfl

theorem upsertLoop_ok_expected (B : Backend E) (video_id : String) :
    ∀ (chunks : List Chunk) (i : Nat),
      (upsertLoop B video_id chunks i).1 = .ok () →
      expectedUpserts B video_id chunks i
        = some (performedUpserts (upsertLoop B video_id chunks i).2) := by
  intro chunks
  induction chunks with
  | nil => intro i h; rfl
  | cons c rest ih =>
    intro i h
    simp only [upsertLoop] at h
    simp only [expectedUpserts]
    split at h
    next e heq => simp at h
    next emb heq =>
      split at h
      next e2 hup => simp at h
      next u hup =>
        have h2 : (upsertLoop B video_id rest (i + 1)).1 = .ok () := h
        simp only [upsertLoop, heq, hup]
        rw [ih (i + 1) h2]
        simp [performedUpserts, List.filterMap_cons]

theorem expectedUpserts_ids (B : Backend E) (video_id : String) :
    ∀ (chunks : List Chunk) (i : Nat) (us : List UpsertVector),
      expectedUpserts B video_id chunks i = some us →
      us.map UpsertVector.id
        = (List.range chunks.length).map
            (fun j => video_id ++ "_chunk_" ++ toString (i + j)) := by
  intro chunks
  induction chunks with
  | nil =>
    intro i us h
    simp only [expectedUpserts] at h
    cases h
    rfl
  | cons c rest ih =>
    intro i us h
    simp only [expectedUpserts] at h
    split at h
    next e heq => simp at h
    next emb heq =>
      cases hrest : expectedUpserts B video_id rest (i + 1) with
      | none => rw [hrest] at h; simp at h
      | some us' =>
        rw [hrest] at h
        simp only [Option.map_some'] at h
        cases h
        rw [List.length_cons, List.range_succ_eq_map, List.map_cons, List.map_cons,
          List.map_map]
        have hid : (chunkVector video_id i c emb).id
            = video_id ++ "_chunk_" ++ toString (i + 0) := by
          simp [chunkVector]
        rw [hid, ih (i + 1) us' hrest]
        congr 1
        apply List.map_congr_left
        intro a _
        simp only [Function.comp_apply]
        have harith : i + 1 + a = i + Nat.succ a := by omega
        rw [harith]

/-- C2: a successful indexing run upserts exactly one vector per chunk, in
order, with ids `<video_id>_chunk_<j>` for j = 0,...,n-1 (contiguous,
gapless, starting at 0), where the vectors and metadata are determined by
the chunks and the (deterministic) embedding backend; re-applying the same
upsert sequence to any store state leaves it unchanged, so re-indexing the
same video with the same chunking overwrites rather than duplicates. -/
theorem index_video_transcript_ids_idempotent (E) (B : Backend E)
    (key video_id : String) (transcript : List CaptionEntry)
    (hok : (index_video_transcript B (some key) video_id transcript).1 = .ok ()) :
    ∃ chunks us,
      create_chunks transcript 3 = .ok chunks ∧
      expectedUpserts B video_id chunks 0 = some us ∧
      performedUpserts (index_video_transcript B (some key) video_id transcript).2
        = us ∧
      us.map UpsertVector.id
        = (List.range chunks.length).map (fun j => video_id ++ "_chunk_" ++ toString j) ∧
      ∀ s : Store, applyUpserts (applyUpserts s us) us = applyUpserts s us := by
  have hch : create_chunks transcript 3
      = .ok ((groupsPos (3:Int).toNat transcript).map mkChunk) := by
    simp [create_chunks]
  set chunks := (groupsPos (3:Int).toNat transcript).map mkChunk with hchunks
  have hidx : index_video_transcript B (some key) video_id transcript
      = ((upsertLoop B video_id chunks 0).1.mapError Sum.inr,
         (upsertLoop B video_id chunks 0).2) := by
    simp [index_video_transcript, hch]
  have hloop : (upsertLoop B video_id chunks 0).1 = .ok () := by
    rw [hidx] at hok
    cases hl : (upsertLoop B video_id chunks 0).1 with
    | error e => rw [hl] at hok; simp [Except.mapError] at hok
    | ok u => rfl
  have hexp := upsertLoop_ok_expected B video_id chunks 0 hloop
  refine ⟨chunks, performedUpserts (upsertLoop B video_id chunks 0).2, hch, hexp,
    ?_, ?_, ?_⟩
  · rw [hidx]
  · have := expectedUpserts_ids B video_id chunks 0 _ hexp
    simpa using this
  · intro s
    exact applyUpserts_idem s _

theorem upsertLoop_append (B : Backend E) (video_id : String) :
    ∀ (pre rest : List Chunk) (i : Nat),
      (upsertLoop B video_id pre i).1 = .ok () →
      (upsertLoop B video_id (pre ++ rest) i).1
          = (upsertLoop B video_id rest (i + pre.length)).1 ∧
      (upsertLoop B video_id (pre ++ rest) i).2
          = (upsertLoop B video_id pre i).2
            ++ (upsertLoop B video_id rest (i + pre.length)).2 := by
  intro pre
  induction pre with
  | nil => intro rest i _; simp [upsertLoop]
  | cons c pre ih =>
    intro rest i h
    simp only [upsertLoop] at h
    simp only [List.cons_append]
    split at h
    next e heq => simp at h
    next emb heq =>
      split at h
      next e2 hup => simp at h
      next u hup =>
        have h2 : (upsertLoop B video_id pre (i + 1)).1 = .ok () := h
        have hstep := ih rest (i + 1) h2
        have harith : i + 1 + pre.length = i + (pre.length + 1) := by omega
        rw [harith] at hstep
        simp only [upsertLoop, heq, hup, List.length_cons]
        constructor
        · exact hstep.1
        · rw [hstep.2]
          simp

/-- The trace the loop produces at the chunk on which it fails. -/
def failEvents (B : Backend E) (video_id : String) (i : Nat) (c : Chunk) :
    List Event :=
  match get_embedding B c.text with
  | .error _ => [.embedCall .retrieval_document c.text]
  | .ok emb => [.embedCall .retrieval_document c.text,
      .upsertCall (chunkVector video_id i c emb)]

/-- C3 (amended): if embedding or upsert fails on the chunk at ordinal
`pre.length` after all earlier chunks succeeded, the run stops there
(the trace is exactly the successful prefix events followed by the failing
chunk's calls, so no later chunk is embedded or upserted, and the earlier
upserts are not rolled back), and the surfaced error is the backend's
underlying exception unchanged — it is not wrapped in any IndexingError
and carries no failing-chunk ordinal. -/
theorem index_failfast_raw_error (E) (B : Backend E) (key video_id : String)
    (transcript : List CaptionEntry) (chunks pre post : List Chunk) (c : Chunk)
    (e : E) (hch : create_chunks transcript 3 = .ok chunks)
    (hsplit : chunks = pre ++ c :: post)
    (hpre : (upsertLoop B video_id pre 0).1 = .ok ())
    (hfail : get_embedding B c.text = .error e ∨
      ∃ emb, get_embedding B c.text = .ok emb ∧
        B.upsert (chunkVector video_id pre.length c emb) = .error e) :
    (index_video_transcript B (some key) video_id transcript).1 = .error (.inr e) ∧
    (index_video_transcript B (some key) video_id transcript).2
      = (upsertLoop B video_id pre 0).2 ++ failEvents B video_id pre.length c := by
  have hidx : index_video_transcript B (some key) video_id transcript
      = ((upsertLoop B video_id chunks 0).1.mapError Sum.inr,
         (upsertLoop B video_id chunks 0).2) := by
    simp [index_video_transcript, hch]
  subst hsplit
  have happ := upsertLoop_append B video_id pre (c :: post) 0 hpre
  rw [Nat.zero_add] at happ
  have hfail' : (upsertLoop B video_id (c :: post) pre.length).1 = .error e ∧
      (upsertLoop B video_id (c :: post) pre.length).2
        = failEvents B video_id pre.length c := by
    rcases hfail with hemb | ⟨emb, hemb, hup⟩
    · simp [upsertLoop, failEvents, hemb]
    · simp [upsertLoop, failEvents, hemb, hup]

  constructor
  · rw [hidx]
    simp only []
    rw [happ.1, hfail'.1]
    rfl
  · rw [hidx]
    simp only []
    rw [happ.2, hfail'.2]

/-- A backend on which every call succeeds. -/
def okBackend : Backend String :=
  { embed := fun _ _ => .ok [1]
    upsert := fun _ => .ok ()
    query := fun _ _ _ => .ok [] }

/-- C2 witness: indexing a one-entry transcript against an all-succeeding
backend performs exactly the upsert with id "vid_chunk_0", and re-applying
that upsert sequence to any store is a no-op. -/
theorem index_video_transcript_ids_idempotent_witness :
    ∃ chunks us,
      create_chunks [(⟨"hello", 0, 2⟩ : CaptionEntry)] 3 = .ok chunks ∧
      expectedUpserts okBackend "vid" chunks 0 = some us ∧
      performedUpserts (index_video_transcript okBackend (some "k") "vid"
          [(⟨"hello", 0, 2⟩ : CaptionEntry)]).2 = us ∧
      us.map UpsertVector.id
        = (List.range chunks.length).map (fun j => "vid" ++ "_chunk_" ++ toString j) ∧
      ∀ s : Store, applyUpserts (applyUpserts s us) us = applyUpserts s us :=
  index_video_transcript_ids_idempotent String okBackend "k" "vid"
    [⟨"hello", 0, 2⟩] rfl

/-- A backend whose embedding call fails with "boom" exactly on the
content "bad". -/
def failBackend : Backend String :=
  { embed := fun _ t => if t = "bad" then .error "boom" else .ok [1]
    upsert := fun _ => .ok ()
    query := fun _ _ _ => .ok [] }

/-- C3 witness: on a four-entry transcript whose second chunk's text is
"bad", the run fails with the raw backend error after performing exactly
the first chunk's embed and upsert calls plus the failing embed call. -/
theorem index_failfast_raw_error_witness :
    (index_video_transcript failBackend (some "k") "vid"
        [(⟨"g", 0, 1⟩ : CaptionEntry), ⟨"g", 1, 1⟩, ⟨"g", 2, 1⟩, ⟨"bad", 3, 1⟩]).1
      = .error (.inr "boom") ∧
    (index_video_transcript failBackend (some "k") "vid"
        [(⟨"g", 0, 1⟩ : CaptionEntry), ⟨"g", 1, 1⟩, ⟨"g", 2, 1⟩, ⟨"bad", 3, 1⟩]).2
      = (upsertLoop failBackend "vid"
          [mkChunk [(⟨"g", 0, 1⟩ : CaptionEntry), ⟨"g", 1, 1⟩, ⟨"g", 2, 1⟩]] 0).2
        ++ failEvents failBackend "vid"
            ([mkChunk [(⟨"g", 0, 1⟩ : CaptionEntry), ⟨"g", 1, 1⟩, ⟨"g", 2, 1⟩]]).length
            (mkChunk [⟨"bad", 3, 1⟩]) :=
  index_failfast_raw_error String failBackend "k" "vid"
    [⟨"g", 0, 1⟩, ⟨"g", 1, 1⟩, ⟨"g", 2, 1⟩, ⟨"bad", 3, 1⟩]
    [mkChunk [⟨"g", 0, 1⟩, ⟨"g", 1, 1⟩, ⟨"g", 2, 1⟩], mkChunk [⟨"bad", 3, 1⟩]]
    [mkChunk [⟨"g", 0, 1⟩, ⟨"g", 1, 1⟩, ⟨"g", 2, 1⟩]] []
    (mkChunk [⟨"bad", 3, 1⟩]) "boom" rfl rfl rfl (Or.inl rfl)

/-- C3 counterexample: two indexing runs that fail at different chunk
ordinals (0 and 1) surface the identical raw backend error "boom": the
surfaced error is the unwrapped underlying exception, so it is no
IndexingError and cannot identify the failing chunk ordinal. -/
theorem index_error_no_ordinal_counterexample :
    (index_video_transcript failBackend (some "k") "vid"
        [(⟨"bad", 0, 1⟩ : CaptionEntry)]).1 = .error (.inr "boom") ∧
    (index_video_transcript failBackend (some "k") "vid"
        [(⟨"g", 0, 1⟩ : CaptionEntry), ⟨"g", 1, 1⟩, ⟨"g", 2, 1⟩, ⟨"bad", 3, 1⟩]).1
      = .error (.inr "boom") :=
  ⟨rfl, rfl⟩

theorem upsertLoop_embed_document (B : Backend E) (video_id : String) :
    ∀ (chunks : List Chunk) (i : Nat) (task : TaskType) (content : String),
      Event.embedCall task content ∈ (upsertLoop B video_id chunks i).2 →
      task = TaskType.retrieval_document := by
  intro chunks
  induction chunks with
  | nil => intro i task content h; simp [upsertLoop] at h
  | cons c rest ih =>
    intro i task content h
    simp only [upsertLoop] at h
    split at h
    next e heq =>
      simp at h
      exact h.1
    next emb heq =>
      split at h
      next e2 hup =>
        simp at h
        exact h.1
      next u hup =>
        simp at h
        rcases h with ⟨h1, _⟩ | h2
        · exact h1
        · exact ih (i + 1) task content h2

/-- C4 (amended): every embedding call issued by indexing AND by search
carries the DOCUMENT intent (task_type "retrieval_document"): the code has
a single `get_embedding` helper that hard-codes `retrieval_document`, so
search queries are not embedded with the QUERY intent. -/
theorem embed_intent_always_document (E) (B : Backend E) (key video_id q : String)
    (td : List CaptionEntry) (top_k : Nat) :
    (∀ task content, Event.embedCall task content
        ∈ (index_video_transcript B (some key) video_id td).2 →
      task = TaskType.retrieval_document) ∧
    (∀ task content, Event.embedCall task content
        ∈ (search_videos B (some key) q top_k).2 →
      task = TaskType.retrieval_document) := by
  constructor
  · intro task content h
    have hch : create_chunks td 3
        = .ok ((groupsPos (3:Int).toNat td).map mkChunk) := by
      simp [create_chunks]
    simp only [index_video_transcript, hch] at h
    exact upsertLoop_embed_document B video_id _ 0 task content h
  · intro task content h
    simp only [search_videos] at h
    split at h
    next e heq =>
      simp at h
      exact h.1
    next qe heq =>
      split at h
      next e2 hq =>
        simp at h
        exact h.1
      next ms hq =>
        simp at h
        exact h.1

/-- A backend returning the vector [1] for DOCUMENT-intent embeddings and
[2] for QUERY-intent embeddings. -/
def intentProbe : Backend String :=
  { embed := fun task _ =>
      match task with
      | .retrieval_document => .ok [1]
      | .retrieval_query => .ok [2]
    upsert := fun _ => .ok ()
    query := fun _ _ _ => .ok [] }

/-- C4 counterexample: the search path embeds the query with the DOCUMENT
intent, not the QUERY intent: against a backend answering [1] for DOCUMENT
and [2] for QUERY, the search trace records an embedCall with
retrieval_document and then queries the store with the document-intent
vector [1]. -/
theorem search_embed_intent_counterexample :
    (search_videos intentProbe (some "k") "q" 5).2
      = [Event.embedCall TaskType.retrieval_document "q",
         Event.queryCall [1] 5 true] ∧
    intentProbe.embed TaskType.retrieval_query "q" = .ok [2] :=
  ⟨rfl, rfl⟩

/-- C5: a successful search maps the store's matches one-to-one and in
order into results copying video_id, text, start/end times, formatted
times and score; if the store honors top_k the result count is at most
top_k; an empty match list gives an empty (non-error) result list; and a
descending-score match order is preserved. -/
theorem search_videos_maps_matches (E) (B : Backend E) (key q : String)
    (top_k : Nat) (rs : List SearchResult)
    (hok : (search_videos B (some key) q top_k).1 = .ok rs)
    (hstore : ∀ v ms, B.query v top_k true = .ok ms → ms.length ≤ top_k) :
    rs.length ≤ top_k ∧
    ∃ qe ms, get_embedding B q = .ok qe ∧ B.query qe top_k true = .ok ms ∧
      rs = ms.map matchToResult ∧
      (ms = [] → rs = []) ∧
      (ms.Pairwise (fun a b => b.score ≤ a.score) →
        rs.Pairwise (fun a b => b.score ≤ a.score)) := by
  simp only [search_videos] at hok
  split at hok
  next e heq => simp at hok
  next qe heq =>
    split at hok
    next e2 hq => simp at hok
    next ms hq =>
      simp only [] at hok
      have hok2 : Except.ok (ms.map matchToResult) = (Except.ok rs : Except (PyErr ⊕ E) (List SearchResult)) := hok
      have hrs : ms.map matchToResult = rs := by
        cases hok2
        rfl
      subst hrs
      refine ⟨?_, qe, ms, heq, hq, rfl, ?_, ?_⟩
      · rw [List.length_map]
        exact hstore qe ms hq
      · intro h
        subst h
        rfl
      · intro hp
        rw [List.pairwise_map]
        exact hp

/-- A backend whose store query returns exactly one match. -/
def oneMatchBackend : Backend String :=
  { embed := fun _ _ => .ok [1]
    upsert := fun _ => .ok ()
    query := fun _ _ _ =>
      .ok [⟨⟨"vid", "hello", 0, 2, "0:00:00", "0:00:02"⟩, 1⟩] }

/-- C5 witness: searching with top_k = 1 against a store answering one
match returns exactly that match mapped to a result. -/
theorem search_videos_maps_matches_witness :
    ([matchToResult ⟨⟨"vid", "hello", 0, 2, "0:00:00", "0:00:02"⟩, 1⟩]).length ≤ 1 ∧
    ∃ qe ms, get_embedding oneMatchBackend "q" = .ok qe ∧
      oneMatchBackend.query qe 1 true = .ok ms ∧
      [matchToResult ⟨⟨"vid", "hello", 0, 2, "0:00:00", "0:00:02"⟩, 1⟩]
        = ms.map matchToResult ∧
      (ms = [] → [matchToResult ⟨⟨"vid", "hello", 0, 2, "0:00:00", "0:00:02"⟩, 1⟩] = []) ∧
      (ms.Pairwise (fun a b => b.score ≤ a.score) →
        ([matchToResult ⟨⟨"vid", "hello", 0, 2, "0:00:00", "0:00:02"⟩, 1⟩]).Pairwise
          (fun a b => b.score ≤ a.score)) :=
  search_videos_maps_matches String oneMatchBackend "k" "q" 1
    [matchToResult ⟨⟨"vid", "hello", 0, 2, "0:00:00", "0:00:02"⟩, 1⟩] rfl
    (by
      intro v ms h
      simp only [oneMatchBackend] at h
      cases h
      decide)

/-- C9 (amended): when the transcript collaborator fails, `get_transcript`
swallows the exception (printing a message) and returns None instead of
surfacing a typed error, and `get_json_transcript` serializes that to the
plain string "null" — a non-error value. -/
theorem get_transcript_swallows (e : String)
    (dumpsList : List CaptionEntry → String) :
    get_transcript (.error e) = none ∧
    get_json_transcript dumpsList (.error e) = "null" :=
  ⟨rfl, rfl⟩

/-- C9 counterexample: with the collaborator reporting that captions are
disabled, `get_transcript` returns the ordinary value None — no typed
TranscriptUnavailable failure reaches the caller — and
`get_json_transcript` returns the ordinary string "null". -/
theorem get_transcript_swallows_counterexample :
    get_transcript (.error "Subtitles are disabled for this video") = none ∧
    get_json_transcript (fun _ => "[]")
      (.error "Subtitles are disabled for this video") = "null" :=
  ⟨rfl, rfl⟩

/-- C10: with PINECONE_API_KEY absent from the environment, both
`index_video_transcript` and `search_videos` fail with the missing-key
ValueError before issuing any external call: the traces are empty, so no
embedding is computed, no upsert is issued and no store query is issued. -/
theorem missing_pinecone_key_no_calls (E) (B : Backend E) (video_id q : String)
    (td : List CaptionEntry) (top_k : Nat) :
    index_video_transcript B none video_id td
      = (.error (.inl pineconeKeyError), []) ∧
    search_videos B none q top_k = (.error (.inl pineconeKeyError), []) :=
  ⟨rfl, rfl⟩

end VideoIndex
